import Mathlib

/-!
Verification of the llmd highlight offset-reconciliation and lifecycle engine.

The definitions below are a shallow embedding of the highlights service
(`src/highlights.ts`, re-exported through `src/template.ts`) and of the
highlight HTTP route handlers (`src/routes/highlights.ts`).  JavaScript
strings are modelled as Lean `String` (a sequence of characters standing for
the UTF-16 code units the source indexes into); JavaScript arrays as `List`;
the SQLite `highlights` table as a `List HighlightRow`; the filesystem as a
partial map `String → Option String`; and the backup cache directory as a
`List ArchiveEntry`.  The SHA-256 hasher `computeFileHash` is used by the
source purely as an equality oracle, so it is threaded through the embedding
as an explicit function parameter named `computeFileHash`.
-/

namespace Llmd

/-- Characters matched by the JavaScript regular-expression class `\s`
(whitespace, as used by `WHITESPACE_REGEX = /\s+/g` and `String.trim`). -/
def isJsWhitespace (c : Char) : Bool :=
  let n := c.toNat
  (9 ≤ n && n ≤ 13) || n = 32 || n = 0xA0 || n = 0x1680 ||
  (0x2000 ≤ n && n ≤ 0x200A) || n = 0x2028 || n = 0x2029 ||
  n = 0x202F || n = 0x205F || n = 0x3000 || n = 0xFEFF

/-- Helper for `text.replace(/\s+/g, " ")`: collapses every maximal run of
whitespace to a single space.  The boolean argument records whether the
previous character belonged to a whitespace run already emitted. -/
def collapseWsAux : Bool → List Char → List Char
  | _, [] => []
  | prevWs, c :: rest =>
    if isJsWhitespace c then
      if prevWs then collapseWsAux true rest
      else ' ' :: collapseWsAux true rest
    else c :: collapseWsAux false rest

/-- Drops whitespace from both ends of a character list (JavaScript
`String.trim`). -/
def trimWs (l : List Char) : List Char :=
  ((l.dropWhile isJsWhitespace).reverse.dropWhile isJsWhitespace).reverse

/-- Embedding of `normalizeWhitespace` from `src/highlights.ts`:
`text.replace(WHITESPACE_REGEX, " ").trim()`. -/
def normalizeWhitespace (text : String) : String :=
  String.mk (trimWs (collapseWsAux false text.toList))

/-- Whether `searchText` occurs verbatim in `content` starting at index `i`
(the match condition of `content.indexOf(searchText, i) = i`). -/
def matchesAt (content searchText : List Char) (i : Nat) : Bool :=
  (content.drop i).take searchText.length == searchText

/-- The list of start indices produced by one exact-search loop of
`findAllOccurrences` (`while (searchStart < content.length) { found =
content.indexOf(searchText, searchStart); ...; searchStart = found + 1 }`).
That loop pushes, in increasing order, exactly the indices `i <
content.length` at which `searchText` matches, so it is embedded as a filter
over the index range. -/
def exactOccurrences (content searchText : String) : List Nat :=
  (List.range content.toList.length).filter (matchesAt content.toList searchText.toList)

/-- Embedding of `findAllOccurrences` from `src/highlights.ts`: the exact
pass first; if it found nothing, the same search over the
whitespace-normalized content and needle. -/
def findAllOccurrences (content searchText : String) : List Nat :=
  let occurrences := exactOccurrences content searchText
  if 0 < occurrences.length then occurrences
  else
    let normalizedSearch := normalizeWhitespace searchText
    let normalizedContent := normalizeWhitespace content
    exactOccurrences normalizedContent normalizedSearch

/-- JavaScript array indexing followed by `?? d`: a negative or out-of-range
index reads `undefined`, which `??` replaces with the default. -/
def jsGetD (l : List Nat) (i : Int) (d : Nat) : Nat :=
  if i < 0 then d else l.getD i.toNat d

/-- Result record of `findTextOffset`. -/
structure TextOffsets where
  startOffset : Nat
  endOffset : Nat
deriving DecidableEq

/-- Embedding of `findTextOffset` from `src/highlights.ts`.  The source
declares `occurrenceIndex = 0` as a default; callers that rely on the default
pass `0` here explicitly.  `occurrenceIndex` is an `Int` because JavaScript
callers may pass a negative number. -/
def findTextOffset (content searchText : String) (occurrenceIndex : Int) :
    Option TextOffsets :=
  let occurrences := findAllOccurrences content searchText
  if occurrences.length = 0 then none
  else if (occurrences.length : Int) ≤ occurrenceIndex then none
  else
    let startOffset := jsGetD occurrences occurrenceIndex 0
    some ⟨startOffset, startOffset + searchText.length⟩

/-- Embedding of `extractTextByOffset`: JavaScript `content.substring(s, e)`
clamps both arguments to the string length and swaps them if needed. -/
def extractTextByOffset (content : String) (startOffset endOffset : Nat) : String :=
  let len := content.toList.length
  let a := min startOffset len
  let b := min endOffset len
  String.mk ((content.toList.drop (min a b)).take (max a b - min a b))

/-- Parameter record of `validateHighlight`. -/
structure ValidateParams where
  content : String
  contentHash : String
  startOffset : Nat
  endOffset : Nat
  highlightedText : String
deriving DecidableEq

/-- Result record of `validateHighlight`; absent optional fields are `none`. -/
structure ValidateResult where
  isValid : Bool
  newStartOffset : Option Nat
  newEndOffset : Option Nat
  newContentHash : Option String
deriving DecidableEq

/-- Embedding of `validateHighlight` from `src/highlights.ts`.  The SHA-256
hasher is passed in as `computeFileHash`.  The source calls `findTextOffset`
without an occurrence index, so the default index `0` is passed explicitly. -/
def validateHighlight (computeFileHash : String → String) (params : ValidateParams) :
    ValidateResult :=
  let currentHash := computeFileHash params.content
  if currentHash = params.contentHash then
    ⟨true, none, none, none⟩
  else
    match findTextOffset params.content params.highlightedText 0 with
    | none => ⟨false, none, none, none⟩
    | some newOffsets =>
        ⟨true, some newOffsets.startOffset, some newOffsets.endOffset, some currentHash⟩

/-- One row of the SQLite `highlights` table, in the camel-cased shape
returned by `getHighlightsByResource`. -/
structure HighlightRow where
  id : String
  resourceId : String
  startOffset : Nat
  endOffset : Nat
  highlightedText : String
  contentHash : String
  isStale : Bool
  notes : Option String
  createdAt : Nat
  updatedAt : Nat
deriving DecidableEq

/-- Embedding of `getHighlightsByResource`: `SELECT ... WHERE resource_id = ?
ORDER BY start_offset ASC`. -/
def getHighlightsByResource (db : List HighlightRow) (resourceId : String) :
    List HighlightRow :=
  (db.filter (fun r => r.resourceId == resourceId)).mergeSort
    (fun a b => a.startOffset ≤ b.startOffset)

/-- Embedding of `markHighlightStale`: `UPDATE highlights SET is_stale = 1,
updated_at = ? WHERE id = ?`, with `now` standing for `Date.now()`. -/
def markHighlightStale (now : Nat) (highlightId : String) (db : List HighlightRow) :
    List HighlightRow :=
  db.map (fun r =>
    if r.id = highlightId then { r with isStale := true, updatedAt := now } else r)

/-- Embedding of `updateHighlight`: `UPDATE highlights SET start_offset = ?,
end_offset = ?, content_hash = ?, is_stale = 0, updated_at = ? WHERE id = ?`. -/
def updateHighlight (now : Nat) (highlightId : String) (startOffset endOffset : Nat)
    (contentHash : String) (db : List HighlightRow) : List HighlightRow :=
  db.map (fun r =>
    if r.id = highlightId then
      { r with startOffset := startOffset, endOffset := endOffset,
               contentHash := contentHash, isStale := false, updatedAt := now }
    else r)

/-- Embedding of `deleteHighlight`: `DELETE FROM highlights WHERE id = ?`. -/
def deleteHighlight (highlightId : String) (db : List HighlightRow) :
    List HighlightRow :=
  db.filter (fun r => r.id != highlightId)

/-- The `ValidateParams` that `deleteInvalidHighlights` (and
`validateResourceHighlights`) builds for one stored row against the current
file content. -/
def rowParams (fileContent : String) (highlight : HighlightRow) : ValidateParams :=
  { content := fileContent, contentHash := highlight.contentHash,
    startOffset := highlight.startOffset, endOffset := highlight.endOffset,
    highlightedText := highlight.highlightedText }

/-- Embedding of `deleteInvalidHighlights` from `src/highlights.ts`: fetches
the resource's highlights, deletes each one whose validation fails, and
returns the number deleted together with the resulting table state. -/
def deleteInvalidHighlights (computeFileHash : String → String)
    (db : List HighlightRow) (resourceId : String) (fileContent : String) :
    Nat × List HighlightRow :=
  let highlights := getHighlightsByResource db resourceId
  highlights.foldl
    (fun acc highlight =>
      let validation := validateHighlight computeFileHash (rowParams fileContent highlight)
      if validation.isValid then acc
      else (acc.1 + 1, deleteHighlight highlight.id acc.2))
    (0, db)

/-- Embedding of the state-relevant core of `handleGetResourceHighlights`
(`src/routes/highlights.ts`).  `fileRead` is the outcome of
`readFileSync(absolutePath, "utf-8")`: `some content` on success, `none` when
the file is unreadable (the `catch` branch).  Returns the JSON `highlights`
list of the response together with the resulting table state.  On success the
handler deletes invalid highlights and returns the remaining rows; on a read
failure it deletes every highlight of the resource and returns the empty
list. -/
def handleGetResourceHighlights (computeFileHash : String → String)
    (db : List HighlightRow) (resourceId : String) (fileRead : Option String) :
    List HighlightRow × List HighlightRow :=
  match fileRead with
  | some fileContent =>
      let cleaned := deleteInvalidHighlights computeFileHash db resourceId fileContent
      (getHighlightsByResource cleaned.2 resourceId, cleaned.2)
  | none =>
      let highlights := getHighlightsByResource db resourceId
      let remaining := highlights.foldl (fun acc h => deleteHighlight h.id acc) db
      ([], remaining)

/-- JavaScript `s.endsWith(suffix)`. -/
def jsEndsWith (s suffix : String) : Bool :=
  suffix.toList.isSuffixOf s.toList

/-- Embedding of `fileName.replace(MD_EXTENSION_REGEX, "")` with
`MD_EXTENSION_REGEX = /\.md$/`: removes a trailing `.md` if present. -/
def stripMdExtension (fileName : String) : String :=
  if jsEndsWith fileName ".md" then
    String.mk (fileName.toList.take (fileName.toList.length - 3))
  else fileName

/-- Splits a path at its last slash, returning the part before and after it;
`none` when the path contains no slash. -/
def splitAtLastSlash (p : String) : Option (String × String) :=
  let rev := p.toList.reverse
  let fileRev := rev.takeWhile (fun c => c != '/')
  if fileRev.length = rev.length then none
  else some (String.mk (p.toList.take (p.toList.length - fileRev.length - 1)),
             String.mk fileRev.reverse)

/-- Node `path.basename`, modelled for ordinary slash-separated paths. -/
def basename (p : String) : String :=
  match splitAtLastSlash p with
  | some pr => pr.2
  | none => p

/-- Node `path.dirname`, modelled for ordinary slash-separated paths. -/
def dirname (p : String) : String :=
  match splitAtLastSlash p with
  | some pr => if pr.1 = "" then "/" else pr.1
  | none => "."

/-- Node `path.join(dir, name)`, modelled for ordinary slash-separated
paths. -/
def joinPath (dir name : String) : String :=
  if dir = "" then name
  else if jsEndsWith dir "/" then dir ++ name
  else dir ++ "/" ++ name

/-- Embedding of `.replace(/[:.]/g, "-")` as applied to the ISO timestamp in
`restoreFile`. -/
def sanitizeTimestamp (s : String) : String :=
  String.mk (s.toList.map (fun c => if c = ':' ∨ c = '.' then '-' else c))

/-- Parameter record of `restoreFile`. -/
structure RestoreParams where
  backupPath : String
  originalPath : String
  useTimestamp : Bool
  timestamp : Int
deriving DecidableEq

/-- The target path that `restoreFile` writes to: the original path, or — when
`useTimestamp` is set — a sibling file with a sanitized ISO timestamp spliced
in before the `.md` extension.  `toISOString` stands for JavaScript
`new Date(t).toISOString()`, whose internal calendar arithmetic is irrelevant
here and is therefore passed in as a function. -/
def restoreTargetPath (toISOString : Int → String) (params : RestoreParams) : String :=
  if params.useTimestamp then
    let dirPath := dirname params.originalPath
    let fileName := basename params.originalPath
    let nameWithoutExt := stripMdExtension fileName
    let timestampStr := sanitizeTimestamp (toISOString params.timestamp)
    joinPath dirPath (nameWithoutExt ++ "_" ++ timestampStr ++ ".md")
  else params.originalPath

/-- Embedding of `restoreFile` from `src/highlights.ts`.  The filesystem is a
partial map from path to file content; `copyFileSync` writes the backup's
content to the target path.  A missing backup file raises
`Backup file not found`, modelled as `Except.error`, and leaves the
filesystem untouched. -/
def restoreFile (toISOString : Int → String) (fs : String → Option String)
    (params : RestoreParams) : Except String String × (String → Option String) :=
  match fs params.backupPath with
  | none => (Except.error ("Backup file not found: " ++ params.backupPath), fs)
  | some backupContent =>
      let targetPath := restoreTargetPath toISOString params
      (Except.ok targetPath, fun p => if p = targetPath then some backupContent else fs p)

/-- One file of the backup cache directory: its filename (the fixed cache
directory prefix is omitted), its size in bytes, and its modification time. -/
structure ArchiveEntry where
  name : String
  size : Nat
  mtime : Int
deriving DecidableEq

/-- Decimal digit characters of `n`, most significant first: the characters
produced by the JavaScript template interpolation of a non-negative number. -/
def natToChars (n : Nat) : List Char :=
  if h : n < 10 then [Char.ofNat (48 + n)]
  else natToChars (n / 10) ++ [Char.ofNat (48 + n % 10)]
termination_by n
decreasing_by exact Nat.div_lt_self (by omega) (by omega)

/-- Decimal rendering of a non-negative number, as performed by the
template-string interpolation in the backup filename. -/
def natToString (n : Nat) : String := String.mk (natToChars n)

/-- The backup filename pattern built by `backupFile`:
`{resourceId}_{timestamp}_{originalName}`. -/
def backupFileName (resourceId : String) (timestamp : Nat) (fileName : String) : String :=
  resourceId ++ "_" ++ natToString timestamp ++ "_" ++ fileName

/-- Embedding of `backupFile` from `src/highlights.ts`: copies the file at
`filePath` (whose size on disk is `size` and resulting modification time
`mtime`) into the cache directory under the deterministic backup filename,
returning that backup path together with the new cache-directory state. -/
def backupFile (filePath resourceId : String) (timestamp : Nat) (size : Nat)
    (mtime : Int) (archive : List ArchiveEntry) : String × List ArchiveEntry :=
  let fileName := basename filePath
  let backupName := backupFileName resourceId timestamp fileName
  (backupName, archive ++ [⟨backupName, size, mtime⟩])

/-- JavaScript `name.split("_")` at the character level: always returns at
least one group, with empty groups for leading, trailing or doubled
separators. -/
def jsSplitUnderscoreCh : List Char → List (List Char)
  | [] => [[]]
  | c :: rest =>
    if c = '_' then [] :: jsSplitUnderscoreCh rest
    else
      match jsSplitUnderscoreCh rest with
      | [] => [[c]]
      | g :: gs => (c :: g) :: gs

/-- JavaScript `name.split("_")`. -/
def jsSplitUnderscore (s : String) : List String :=
  (jsSplitUnderscoreCh s.toList).map String.mk

/-- JavaScript `parts.join("_")` at the character level. -/
def joinUnderscoreCh : List (List Char) → List Char
  | [] => []
  | [g] => g
  | g :: gs => g ++ '_' :: joinUnderscoreCh gs

/-- JavaScript `parts.join("_")`. -/
def joinUnderscore (l : List String) : String :=
  String.mk (joinUnderscoreCh (l.map String.toList))

/-- Decodes a list of decimal digit characters. -/
def parseDigits (l : List Char) : Nat :=
  l.foldl (fun a c => a * 10 + (c.toNat - 48)) 0

/-- JavaScript `Number.parseInt(s, 10)`, modelled for the non-negative decimal
strings that occur in backup filenames; `none` stands for `NaN`. -/
def jsParseInt10 (s : String) : Option Nat :=
  let ds := s.toList.takeWhile Char.isDigit
  if ds.isEmpty then none else some (parseDigits ds)

/-- One entry of the `listArchiveFiles` result: file metadata together with
the fields recovered from the `{resourceId}_{timestamp}_{originalName}`
filename pattern. -/
structure ArchiveInfo where
  name : String
  size : Nat
  mtime : Int
  resourceId : String
  timestamp : Option Nat
  originalName : String
deriving DecidableEq

/-- The per-file parsing step of `listArchiveFiles`: `const parts =
file.split("_")`, `resourceId = parts[0] || ""`, `timestamp =
Number.parseInt(parts[1] || "0", 10)`, `originalName =
parts.slice(2).join("_")`. -/
def parseArchiveEntry (e : ArchiveEntry) : ArchiveInfo :=
  let parts := jsSplitUnderscore e.name
  let resourceId := parts.getD 0 ""
  let tsStr := match parts.get? 1 with
               | none => "0"
               | some s => if s = "" then "0" else s
  { name := e.name, size := e.size, mtime := e.mtime,
    resourceId := resourceId, timestamp := jsParseInt10 tsStr,
    originalName := joinUnderscore (parts.drop 2) }

/-- Embedding of `listArchiveFiles` from `src/highlights.ts`: keeps the `.md`
files of the cache directory, parses each filename, and sorts most recent
first (`sort((a, b) => b.mtime - a.mtime)`). -/
def listArchiveFiles (archive : List ArchiveEntry) : List ArchiveInfo :=
  ((archive.filter (fun f => jsEndsWith f.name ".md")).map parseArchiveEntry).mergeSort
    (fun a b => b.mtime ≤ a.mtime)

/-- Embedding of `clearArchive` from `src/highlights.ts`: lists the archive,
sums the sizes, deletes each listed file (`rmSync`, modelled by name since all
listed paths live in the one cache directory), and reports the count of
deleted files and total bytes freed. -/
def clearArchive (archive : List ArchiveEntry) : (Nat × Nat) × List ArchiveEntry :=
  let files := listArchiveFiles archive
  let freedBytes := (files.map (fun f => f.size)).sum
  let deletedCount := files.length
  ((deletedCount, freedBytes),
   archive.filter (fun e => !((files.map (fun f => f.name)).contains e.name)))

/-- Sample row fixture used by concrete witness instantiations. -/
def rowA : HighlightRow :=
  { id := "a", resourceId := "r", startOffset := 1, endOffset := 2,
    highlightedText := "t", contentHash := "h", isStale := false,
    notes := some "n", createdAt := 3, updatedAt := 4 }

/-- Second sample row fixture used by concrete witness instantiations. -/
def rowB : HighlightRow :=
  { id := "b", resourceId := "r", startOffset := 5, endOffset := 6,
    highlightedText := "u", contentHash := "g", isStale := false,
    notes := none, createdAt := 7, updatedAt := 8 }

/-! Helper lemmas shared by the claim theorems. -/

/-- A member of an exact-occurrence list is a genuine match position. -/
theorem matchesAt_of_mem_exactOccurrences {content searchText : String} {x : Nat}
    (h : x ∈ exactOccurrences content searchText) :
    matchesAt content.toList searchText.toList x = true :=
  (List.mem_filter.mp h).2

/-- Membership characterisation of `getHighlightsByResource`. -/
theorem mem_getHighlightsByResource {db : List HighlightRow} {resourceId : String}
    {row : HighlightRow} (h : row ∈ getHighlightsByResource db resourceId) :
    row ∈ db ∧ row.resourceId = resourceId := by
  have h2 := List.mem_mergeSort.mp h
  have h3 := List.mem_filter.mp h2
  exact ⟨h3.1, by simpa using h3.2⟩

/-- Converse membership for `getHighlightsByResource`. -/
theorem mem_getHighlightsByResource_of {db : List HighlightRow} {resourceId : String}
    {row : HighlightRow} (h1 : row ∈ db) (h2 : row.resourceId = resourceId) :
    row ∈ getHighlightsByResource db resourceId := by
  exact List.mem_mergeSort.mpr (List.mem_filter.mpr ⟨h1, by simpa using h2⟩)

/-- Rows surviving `deleteHighlight` do not carry the deleted id. -/
theorem ne_of_mem_deleteHighlight {highlightId : String} {db : List HighlightRow}
    {row : HighlightRow} (h : row ∈ deleteHighlight highlightId db) :
    row.id ≠ highlightId := by
  have h2 := (List.mem_filter.mp h).2
  simpa using h2

/-- The `deleteHighlight` result is a sublist of the input table. -/
theorem mem_of_mem_deleteHighlight {highlightId : String} {db : List HighlightRow}
    {row : HighlightRow} (h : row ∈ deleteHighlight highlightId db) : row ∈ db :=
  (List.mem_filter.mp h).1

/-- The deletion loop of `deleteInvalidHighlights` only ever removes rows. -/
theorem mem_of_mem_deleteInvalid_foldl (computeFileHash : String → String)
    (fileContent : String) (hs : List HighlightRow) :
    ∀ (acc : Nat × List HighlightRow) (row : HighlightRow),
      row ∈ (hs.foldl
        (fun acc highlight =>
          let validation := validateHighlight computeFileHash (rowParams fileContent highlight)
          if validation.isValid then acc
          else (acc.1 + 1, deleteHighlight highlight.id acc.2)) acc).2 →
      row ∈ acc.2 := by
  induction hs with
  | nil => intro acc row h; simpa using h
  | cons head tail ih =>
      intro acc row h
      rw [List.foldl_cons] at h
      have h2 := ih _ row h
      by_cases hv : (validateHighlight computeFileHash (rowParams fileContent head)).isValid
      · simpa [hv] using h2
      · simp only [hv] at h2
        exact mem_of_mem_deleteHighlight (by simpa using h2)

/-- Once the deletion loop of `deleteInvalidHighlights` has processed a row
that failed validation, no row with that id remains. -/
theorem id_gone_of_deleteInvalid_foldl (computeFileHash : String → String)
    (fileContent : String) (hs : List HighlightRow) :
    ∀ (acc : Nat × List HighlightRow) (r : HighlightRow), r ∈ hs →
      (validateHighlight computeFileHash (rowParams fileContent r)).isValid = false →
      ∀ row ∈ (hs.foldl
        (fun acc highlight =>
          let validation := validateHighlight computeFileHash (rowParams fileContent highlight)
          if validation.isValid then acc
          else (acc.1 + 1, deleteHighlight highlight.id acc.2)) acc).2,
        row.id ≠ r.id := by
  induction hs with
  | nil => intro acc r hr; exact absurd hr (List.not_mem_nil r)
  | cons head tail ih =>
      intro acc r hr hfail row hrow
      rw [List.foldl_cons] at hrow
      rcases List.mem_cons.mp hr with heq | htail
      · subst heq
        have hsub := mem_of_mem_deleteInvalid_foldl computeFileHash fileContent tail _ row hrow
        simp only [hfail] at hsub
        exact ne_of_mem_deleteHighlight (by simpa using hsub)
      · exact ih _ r htail hfail row hrow

/-- The unconditional deletion loop of the unreadable-file branch only ever
removes rows. -/
theorem mem_of_mem_deleteAll_foldl (hs : List HighlightRow) :
    ∀ (db : List HighlightRow) (row : HighlightRow),
      row ∈ hs.foldl (fun acc h => deleteHighlight h.id acc) db → row ∈ db := by
  induction hs with
  | nil => intro db row h; simpa using h
  | cons head tail ih =>
      intro db row h
      rw [List.foldl_cons] at h
      exact mem_of_mem_deleteHighlight (ih _ row h)

/-- After the unconditional deletion loop, no id of a processed row remains. -/
theorem id_gone_of_deleteAll_foldl (hs : List HighlightRow) :
    ∀ (db : List HighlightRow) (r : HighlightRow), r ∈ hs →
      ∀ row ∈ hs.foldl (fun acc h => deleteHighlight h.id acc) db, row.id ≠ r.id := by
  induction hs with
  | nil => intro db r hr; exact absurd hr (List.not_mem_nil r)
  | cons head tail ih =>
      intro db r hr row hrow
      rw [List.foldl_cons] at hrow
      rcases List.mem_cons.mp hr with heq | htail
      · subst heq
        exact ne_of_mem_deleteHighlight (mem_of_mem_deleteAll_foldl tail _ row hrow)
      · exact ih _ r htail row hrow

/-- A filename ending in ".md" has at least three characters. -/
theorem three_le_length_of_md {f : String} (h : jsEndsWith f ".md" = true) :
    3 ≤ f.toList.length := by
  have hs : ".md".toList <:+ f.toList := by
    simp only [jsEndsWith, List.isSuffixOf_iff_suffix] at h
    exact h
  have h1 : (".md".toList).length = 3 := by decide
  have h2 := hs.length_le
  omega

/-- The timestamped sibling filename built by `restoreFile` is strictly longer
than the original filename, whatever the timestamp string is. -/
theorem newName_longer (f t : String) :
    f.length < (stripMdExtension f ++ "_" ++ t ++ ".md").length := by
  have hflen : f.length = f.toList.length := rfl
  have ht : ("_" : String).length = 1 := by decide
  have hmd : (".md" : String).length = 3 := by decide
  by_cases h : jsEndsWith f ".md" = true
  · have h3 := three_le_length_of_md h
    have hlen : (stripMdExtension f).length = f.toList.length - 3 := by
      simp only [stripMdExtension, if_pos h]
      show (f.toList.take (f.toList.length - 3)).length = f.toList.length - 3
      rw [List.length_take]
      omega
    simp only [String.length_append, hlen, ht, hmd]
    omega
  · have hlen : (stripMdExtension f).length = f.length := by
      simp only [stripMdExtension, if_neg h]
    simp only [String.length_append, hlen, ht, hmd]
    omega

/-- String append distributes over `toList`. -/
theorem toList_append (a b : String) : (a ++ b).toList = a.toList ++ b.toList :=
  String.data_append a b

/-- Building a string from a character list and reading it back is the
identity. -/
theorem toList_mk (l : List Char) : (String.mk l).toList = l := rfl

/-- Rebuilding a string from its character list is the identity. -/
theorem mk_toList (s : String) : String.mk s.toList = s := rfl

/-- Decimal digit characters are digits. -/
theorem digitChar_isDigit {d : Nat} (h : d < 10) :
    (Char.ofNat (48 + d)).isDigit = true := by
  interval_cases d <;> decide

/-- The code point of a decimal digit character. -/
theorem digitChar_toNat {d : Nat} (h : d < 10) :
    (Char.ofNat (48 + d)).toNat = 48 + d := by
  interval_cases d <;> decide

/-- Decimal digit characters are not the underscore separator. -/
theorem digitChar_ne_sep {d : Nat} (h : d < 10) :
    Char.ofNat (48 + d) ≠ '_' := by
  interval_cases d <;> decide

/-- A decimal rendering is never empty. -/
theorem natToChars_ne_nil (n : Nat) : natToChars n ≠ [] := by
  rw [natToChars]
  split
  · simp
  · simp

/-- Every character of a decimal rendering is a decimal digit character. -/
theorem natToChars_mem {n : Nat} {c : Char} (h : c ∈ natToChars n) :
    ∃ d, d < 10 ∧ c = Char.ofNat (48 + d) := by
  induction n using Nat.strong_induction_on with
  | _ n ih =>
    rw [natToChars] at h
    split at h
    · rename_i hlt
      simp only [List.mem_singleton] at h
      exact ⟨n, hlt, h⟩
    · rename_i hge
      rcases List.mem_append.mp h with h1 | h2
      · exact ih (n / 10) (Nat.div_lt_self (by omega) (by omega)) h1
      · simp only [List.mem_singleton] at h2
        exact ⟨n % 10, Nat.mod_lt _ (by omega), h2⟩

/-- Decoding a decimal rendering recovers the number. -/
theorem parseDigits_natToChars (n : Nat) : parseDigits (natToChars n) = n := by
  induction n using Nat.strong_induction_on with
  | _ n ih =>
    rw [natToChars]
    split
    · rename_i hlt
      simp only [parseDigits, List.foldl_cons, List.foldl_nil, digitChar_toNat hlt]
      omega
    · rename_i hge
      have hdiv := ih (n / 10) (Nat.div_lt_self (by omega) (by omega))
      have hmod : n % 10 < 10 := Nat.mod_lt _ (by omega)
      simp only [parseDigits, List.foldl_append, List.foldl_cons, List.foldl_nil]
      simp only [parseDigits] at hdiv
      rw [hdiv, digitChar_toNat hmod]
      omega

/-- The JavaScript parseInt of a decimal rendering recovers the number. -/
theorem jsParseInt10_natToString (n : Nat) : jsParseInt10 (natToString n) = some n := by
  have hall : ∀ c ∈ natToChars n, Char.isDigit c = true := by
    intro c hc
    obtain ⟨d, hd, rfl⟩ := natToChars_mem hc
    exact digitChar_isDigit hd
  have htake : (natToString n).toList.takeWhile Char.isDigit = natToChars n := by
    rw [show (natToString n).toList = natToChars n from rfl]
    exact List.takeWhile_eq_self_iff.mpr hall
  have hne : natToChars n ≠ [] := natToChars_ne_nil n
  show (if ((natToString n).toList.takeWhile Char.isDigit).isEmpty then none
        else some (parseDigits ((natToString n).toList.takeWhile Char.isDigit))) = some n
  rw [htake, parseDigits_natToChars]
  cases hn : natToChars n with
  | nil => exact absurd hn hne
  | cons a t => simp [hn]

/-- The JavaScript underscore split never produces an empty group list. -/
theorem jsSplitUnderscoreCh_ne_nil (l : List Char) : jsSplitUnderscoreCh l ≠ [] := by
  induction l with
  | nil => simp [jsSplitUnderscoreCh]
  | cons c rest ih =>
    simp only [jsSplitUnderscoreCh]
    split
    · simp
    · split
      · simp
      · simp

/-- Splitting a separator-free list yields the one-group list. -/
theorem jsSplitUnderscoreCh_no_sep {l : List Char} (h : ¬ '_' ∈ l) :
    jsSplitUnderscoreCh l = [l] := by
  induction l with
  | nil => rfl
  | cons c rest ih =>
    have hc : ¬ c = '_' := fun hh => h (by simp [hh])
    have hr : ¬ '_' ∈ rest := fun hh => h (List.mem_cons_of_mem _ hh)
    simp only [jsSplitUnderscoreCh, if_neg hc, ih hr]

/-- Splitting after a separator-free part peels that part off as the first
group. -/
theorem jsSplitUnderscoreCh_append {a : List Char} (b : List Char) (h : ¬ '_' ∈ a) :
    jsSplitUnderscoreCh (a ++ '_' :: b) = a :: jsSplitUnderscoreCh b := by
  induction a with
  | nil => simp [jsSplitUnderscoreCh]
  | cons c rest ih =>
    have hc : ¬ c = '_' := fun hh => h (by simp [hh])
    have hr : ¬ '_' ∈ rest := fun hh => h (List.mem_cons_of_mem _ hh)
    show jsSplitUnderscoreCh (c :: (rest ++ '_' :: b)) =
      (c :: rest) :: jsSplitUnderscoreCh b
    simp only [jsSplitUnderscoreCh, if_neg hc, ih hr]

/-- Joining the groups of an underscore split reconstructs the original
list. -/
theorem joinUnderscoreCh_jsSplitUnderscoreCh (l : List Char) :
    joinUnderscoreCh (jsSplitUnderscoreCh l) = l := by
  induction l with
  | nil => rfl
  | cons c rest ih =>
    by_cases hc : c = '_'
    · subst hc
      simp only [jsSplitUnderscoreCh, if_pos rfl]
      cases hsplit : jsSplitUnderscoreCh rest with
      | nil => exact absurd hsplit (jsSplitUnderscoreCh_ne_nil rest)
      | cons g gs =>
        rw [hsplit] at ih
        simp only [joinUnderscoreCh, List.nil_append]
        rw [ih]
    · simp only [jsSplitUnderscoreCh, if_neg hc]
      cases hsplit : jsSplitUnderscoreCh rest with
      | nil => exact absurd hsplit (jsSplitUnderscoreCh_ne_nil rest)
      | cons g gs =>
        rw [hsplit] at ih
        cases gs with
        | nil =>
          simp only [joinUnderscoreCh] at ih ⊢
          rw [ih]
        | cons g2 gs2 =>
          simp only [joinUnderscoreCh, List.cons_append] at ih ⊢
          rw [← ih]

/-! Claim theorems. -/

/-- C1: Drift relocation.  When the current content's hash differs from the
stored hash and the stored text is re-located at occurrence 0,
`validateHighlight` reports the highlight valid with the new offsets and the
new content hash, and `updateHighlight` (the reconciliation pass's write)
stores the new offsets and hash, clears the stale flag and bumps
updated-at on the highlight's row. -/
theorem C1_drift_relocation (computeFileHash : String → String)
    (params : ValidateParams) (offs : TextOffsets) (now : Nat)
    (db : List HighlightRow) (r : HighlightRow)
    (hhash : computeFileHash params.content ≠ params.contentHash)
    (hfind : findTextOffset params.content params.highlightedText 0 = some offs)
    (hr : r ∈ db) :
    validateHighlight computeFileHash params =
      ⟨true, some offs.startOffset, some offs.endOffset,
        some (computeFileHash params.content)⟩ ∧
    { r with startOffset := offs.startOffset, endOffset := offs.endOffset,
             contentHash := computeFileHash params.content,
             isStale := false, updatedAt := now }
      ∈ updateHighlight now r.id offs.startOffset offs.endOffset
          (computeFileHash params.content) db := by
  constructor
  · simp only [validateHighlight, if_neg hhash, hfind]
  · unfold updateHighlight
    have := List.mem_map_of_mem
      (fun row => if row.id = r.id then
        { row with startOffset := offs.startOffset, endOffset := offs.endOffset,
                   contentHash := computeFileHash params.content,
                   isStale := false, updatedAt := now }
      else row) hr
    simpa using this

/-- Witness for C1 at a concrete drifted file: content gained a prefix, the
text relocates from offset 10 to offset 3, and the row is rewritten. -/
theorem C1_drift_relocation_witness :
    validateHighlight (fun s => s)
      ⟨"xx brown fox", "old", 10, 19, "brown fox"⟩ =
      ⟨true, some 3, some 12, some "xx brown fox"⟩ ∧
    ({ id := "h1", resourceId := "res", startOffset := 3, endOffset := 12,
       highlightedText := "brown fox", contentHash := "xx brown fox",
       isStale := false, notes := none, createdAt := 5, updatedAt := 99 } : HighlightRow)
      ∈ updateHighlight 99 "h1" 3 12 "xx brown fox"
          [{ id := "h1", resourceId := "res", startOffset := 10, endOffset := 19,
             highlightedText := "brown fox", contentHash := "old",
             isStale := true, notes := none, createdAt := 5, updatedAt := 5 }] := by
  have h := C1_drift_relocation (fun s => s)
    ⟨"xx brown fox", "old", 10, 19, "brown fox"⟩ ⟨3, 12⟩ 99
    [{ id := "h1", resourceId := "res", startOffset := 10, endOffset := 19,
       highlightedText := "brown fox", contentHash := "old",
       isStale := true, notes := none, createdAt := 5, updatedAt := 5 }]
    { id := "h1", resourceId := "res", startOffset := 10, endOffset := 19,
      highlightedText := "brown fox", contentHash := "old",
      isStale := true, notes := none, createdAt := 5, updatedAt := 5 }
    (by decide) (by decide) (by simp)
  exact h

/-- C6: Marking stale is frame-preserving.  `markHighlightStale` keeps the
table length, sets the stale flag and updated-at on the addressed row while
leaving its other fields alone, and leaves every other row unchanged. -/
theorem C6_mark_stale_frame (now : Nat) (highlightId : String)
    (db : List HighlightRow) (i : Nat) (hi : i < db.length)
    (hi2 : i < (markHighlightStale now highlightId db).length) :
    (markHighlightStale now highlightId db).length = db.length ∧
    ((markHighlightStale now highlightId db)[i].id = db[i].id ∧
     (markHighlightStale now highlightId db)[i].resourceId = db[i].resourceId ∧
     (markHighlightStale now highlightId db)[i].startOffset = db[i].startOffset ∧
     (markHighlightStale now highlightId db)[i].endOffset = db[i].endOffset ∧
     (markHighlightStale now highlightId db)[i].highlightedText = db[i].highlightedText ∧
     (markHighlightStale now highlightId db)[i].contentHash = db[i].contentHash ∧
     (markHighlightStale now highlightId db)[i].notes = db[i].notes ∧
     (markHighlightStale now highlightId db)[i].createdAt = db[i].createdAt) ∧
    (db[i].id = highlightId →
      (markHighlightStale now highlightId db)[i].isStale = true ∧
      (markHighlightStale now highlightId db)[i].updatedAt = now) ∧
    (db[i].id ≠ highlightId →
      (markHighlightStale now highlightId db)[i] = db[i]) := by
  have hget : (markHighlightStale now highlightId db)[i] =
      if db[i].id = highlightId then
        { db[i] with isStale := true, updatedAt := now }
      else db[i] := by
    simp [markHighlightStale]
  refine ⟨by simp [markHighlightStale], ?_, ?_, ?_⟩
  · by_cases hid : db[i].id = highlightId <;> simp [hget, hid]
  · intro hid; simp [hget, hid]
  · intro hid; simp [hget, hid]

/-- Witness for C6 on a two-row table: the addressed row is stale-marked with
its other fields intact, the second row is untouched. -/
theorem C6_mark_stale_frame_witness :
    (markHighlightStale 77 "a" [rowA, rowB]).length = 2 ∧
    ((markHighlightStale 77 "a" [rowA, rowB]).get ⟨0, by decide⟩).isStale = true ∧
    ((markHighlightStale 77 "a" [rowA, rowB]).get ⟨0, by decide⟩).updatedAt = 77 ∧
    ((markHighlightStale 77 "a" [rowA, rowB]).get ⟨0, by decide⟩).highlightedText =
      rowA.highlightedText ∧
    ((markHighlightStale 77 "a" [rowA, rowB]).get ⟨0, by decide⟩).startOffset =
      rowA.startOffset ∧
    ((markHighlightStale 77 "a" [rowA, rowB]).get ⟨1, by decide⟩) = rowB := by
  have h0 := C6_mark_stale_frame 77 "a" [rowA, rowB] 0 (by decide) (by decide)
  have h1 := C6_mark_stale_frame 77 "a" [rowA, rowB] 1 (by decide) (by decide)
  refine ⟨by simpa using h0.1, ?_, ?_, ?_, ?_, ?_⟩
  · simpa using (h0.2.2.1 (by decide)).1
  · simpa using (h0.2.2.1 (by decide)).2
  · simpa using h0.2.1.2.2.2.2.1
  · simpa using h0.2.1.2.2.1
  · simpa using h1.2.2.2 (by decide)

/-- C9: Validation ignores stored offsets.  Two `validateHighlight` calls
whose parameters agree except for the start and end offsets give equal
results, and when the current content hashes to the stored hash the
highlight is reported valid outright (no check of the stored text against
the content slice at the stored offsets). -/
theorem C9_validation_ignores_offsets (computeFileHash : String → String)
    (p1 p2 : ValidateParams)
    (hc : p1.content = p2.content) (hh : p1.contentHash = p2.contentHash)
    (ht : p1.highlightedText = p2.highlightedText) :
    validateHighlight computeFileHash p1 = validateHighlight computeFileHash p2 ∧
    (computeFileHash p1.content = p1.contentHash →
      validateHighlight computeFileHash p1 = ⟨true, none, none, none⟩) := by
  constructor
  · simp only [validateHighlight, hc, hh, ht]
  · intro h
    simp only [validateHighlight, if_pos h]

/-- Witness for C9: two parameter records differing only in their offsets
(one of which does not even slice to the stored text) validate identically,
and a matching hash validates with no offset check. -/
theorem C9_validation_ignores_offsets_witness :
    validateHighlight (fun s => s) ⟨"abc", "abc", 0, 1, "zzz"⟩ =
      validateHighlight (fun s => s) ⟨"abc", "abc", 2, 3, "zzz"⟩ ∧
    validateHighlight (fun s => s) ⟨"abc", "abc", 0, 1, "zzz"⟩ =
      ⟨true, none, none, none⟩ := by
  have h := C9_validation_ignores_offsets (fun s => s)
    ⟨"abc", "abc", 0, 1, "zzz"⟩ ⟨"abc", "abc", 2, 3, "zzz"⟩ rfl rfl rfl
  exact ⟨h.1, h.2 rfl⟩

/-- C10: Negative occurrence index.  When the content contains at least one
exact occurrence of the search text, any negative occurrence index makes
`findTextOffset` return offsets 0 and the search text's length instead of
NotFound. -/
theorem C10_negative_index (content searchText : String) (occurrenceIndex : Int)
    (hocc : exactOccurrences content searchText ≠ [])
    (hneg : occurrenceIndex < 0) :
    findTextOffset content searchText occurrenceIndex =
      some ⟨0, searchText.length⟩ := by
  have hlen : 0 < (exactOccurrences content searchText).length :=
    List.length_pos.mpr hocc
  have hall : findAllOccurrences content searchText = exactOccurrences content searchText := by
    simp only [findAllOccurrences, if_pos hlen]
  have hle : ¬ ((exactOccurrences content searchText).length : Int) ≤ occurrenceIndex := by
    omega
  simp only [findTextOffset, hall, if_neg (Nat.pos_iff_ne_zero.mp hlen), if_neg hle,
    jsGetD, if_pos hneg, Nat.zero_add]

/-- Witness for C10: the content holds "yy" only at offset 3, yet index -1
yields offsets (0, 2). -/
theorem C10_negative_index_witness :
    findTextOffset "xx yy" "yy" (-1) = some ⟨0, 2⟩ := by
  simpa using C10_negative_index "xx yy" "yy" (-1) (by decide) (by decide)

/-- C3 counterexample: with content "a b" and needle "a  b" the exact pass
finds nothing, the fallback matches at normalized position 0, and the
returned endOffset is 4 — the raw needle's length — not 3, the normalized
needle's length, refuting the claim that the fallback endOffset is
startOffset plus the normalized-text length. -/
theorem C3_normalized_end_counterexample :
    exactOccurrences "a b" "a  b" = [] ∧
    findTextOffset "a b" "a  b" 0 = some ⟨0, 4⟩ ∧
    (normalizeWhitespace "a  b").length = 3 ∧
    ¬ (4 = 0 + (normalizeWhitespace "a  b").length) := by decide

/-- C3 (amended): when the exact pass finds zero occurrences and the locator
returns an offset pair for a non-negative occurrence index, the startOffset
is a genuine match position of the normalized needle inside the normalized
content, and the endOffset is startOffset plus the RAW needle's length (not
the normalized-text length). -/
theorem C3_normalized_fallback_offsets (content needle : String)
    (occurrenceIndex : Int) (r : TextOffsets)
    (hexact : exactOccurrences content needle = [])
    (hidx : 0 ≤ occurrenceIndex)
    (hfind : findTextOffset content needle occurrenceIndex = some r) :
    matchesAt (normalizeWhitespace content).toList (normalizeWhitespace needle).toList
      r.startOffset = true ∧
    r.endOffset = r.startOffset + needle.length := by
  have hall : findAllOccurrences content needle =
      exactOccurrences (normalizeWhitespace content) (normalizeWhitespace needle) := by
    simp [findAllOccurrences, hexact]
  simp only [findTextOffset, hall] at hfind
  split at hfind
  · exact absurd hfind (by simp)
  · split at hfind
    · exact absurd hfind (by simp)
    · rename_i hzero hle
      have hr := Option.some.inj hfind
      have hlt : occurrenceIndex.toNat <
          (exactOccurrences (normalizeWhitespace content) (normalizeWhitespace needle)).length := by
        omega
      have hstart : jsGetD
          (exactOccurrences (normalizeWhitespace content) (normalizeWhitespace needle))
          occurrenceIndex 0 =
          (exactOccurrences (normalizeWhitespace content)
            (normalizeWhitespace needle))[occurrenceIndex.toNat] := by
        simp [jsGetD, not_lt.mpr hidx, List.getD_eq_getElem?_getD, List.getElem?_eq_getElem hlt]
      have hmem : (exactOccurrences (normalizeWhitespace content)
          (normalizeWhitespace needle))[occurrenceIndex.toNat] ∈
          exactOccurrences (normalizeWhitespace content) (normalizeWhitespace needle) :=
        List.getElem_mem hlt
      constructor
      · have := matchesAt_of_mem_exactOccurrences hmem
        rw [← hr]
        simpa [hstart] using this
      · rw [← hr]

/-- Witness for C3 (amended) at content "a b", needle "a  b": the match is at
normalized position 0 and the endOffset is 0 plus the raw length 4. -/
theorem C3_normalized_fallback_offsets_witness :
    matchesAt (normalizeWhitespace "a b").toList (normalizeWhitespace "a  b").toList 0 = true ∧
    (4 : Nat) = 0 + "a  b".length := by
  simpa using C3_normalized_fallback_offsets "a b" "a  b" 0 ⟨0, 4⟩
    (by decide) (by decide) (by decide)

/-- C4 counterexample: content "a b c a b" and needle "a  b" give zero exact
occurrences and two normalized-fallback candidates, yet `findTextOffset`
with the default index 0 returns the first candidate instead of NotFound,
refuting the multiple-candidates-means-NotFound clause. -/
theorem C4_ambiguous_counterexample :
    exactOccurrences "a b c a b" "a  b" = [] ∧
    findAllOccurrences "a b c a b" "a  b" = [0, 6] ∧
    findTextOffset "a b c a b" "a  b" 0 ≠ none := by decide

/-- C4 (amended): an occurrence index at or beyond the number of found
occurrences makes `findTextOffset` return NotFound; but when the exact pass
finds zero occurrences and the normalized fallback finds several candidates
with no index supplied (the default index 0), the locator returns the first
candidate rather than NotFound. -/
theorem C4_ambiguity_handling :
    (∀ (content searchText : String) (occurrenceIndex : Int),
        ((findAllOccurrences content searchText).length : Int) ≤ occurrenceIndex →
        findTextOffset content searchText occurrenceIndex = none) ∧
    (∀ (content searchText : String) (o1 o2 : Nat) (rest : List Nat),
        exactOccurrences content searchText = [] →
        findAllOccurrences content searchText = o1 :: o2 :: rest →
        findTextOffset content searchText 0 = some ⟨o1, o1 + searchText.length⟩) := by
  constructor
  · intro content searchText occurrenceIndex hle
    by_cases hzero : (findAllOccurrences content searchText).length = 0
    · simp [findTextOffset, hzero]
    · simp [findTextOffset, hzero, hle]
  · intro content searchText o1 o2 rest hexact hall
    simp [findTextOffset, hall, jsGetD]
    omega

/-- Witness for C4 (amended): index 5 with a single occurrence of "brown" is
NotFound, while the ambiguous fallback case returns the first candidate. -/
theorem C4_ambiguity_handling_witness :
    findTextOffset "The quick brown fox" "brown" 5 = none ∧
    findTextOffset "a b c a b" "a  b" 0 = some ⟨0, 4⟩ := by
  constructor
  · exact C4_ambiguity_handling.1 "The quick brown fox" "brown" 5 (by decide)
  · simpa using C4_ambiguity_handling.2 "a b c a b" "a  b" 0 6 [] (by decide) (by decide)

/-- C2 counterexample: a single highlight of resource "res2" whose text
"gone" no longer occurs in the current content is DELETED by the
list-highlights-for-one-resource operation — the resulting table is empty and
the returned list is empty — refuting the claim that the operation never
deletes and instead marks stale and keeps the row. -/
theorem C2_never_deletes_counterexample :
    (handleGetResourceHighlights (fun s => s)
      [{ id := "h2", resourceId := "res2", startOffset := 0, endOffset := 4,
         highlightedText := "gone", contentHash := "oldhash", isStale := false,
         notes := none, createdAt := 1, updatedAt := 1 }]
      "res2" (some "hello world")).2 = [] ∧
    (handleGetResourceHighlights (fun s => s)
      [{ id := "h2", resourceId := "res2", startOffset := 0, endOffset := 4,
         highlightedText := "gone", contentHash := "oldhash", isStale := false,
         notes := none, createdAt := 1, updatedAt := 1 }]
      "res2" (some "hello world")).1 = [] := by
  constructor <;>
  simp +decide [handleGetResourceHighlights, deleteInvalidHighlights,
    getHighlightsByResource, deleteHighlight]

/-- C2 (amended): the list-highlights-for-one-resource operation follows a
bulk-delete policy, not relocate-or-mark-stale: every highlight of the
resource whose stored text cannot be re-located in the current file content
is deleted from the table (no row with its id survives, in the table or in
the response), and the operation returns the list of highlights remaining
after deletion. -/
theorem C2_bulk_delete_policy (computeFileHash : String → String)
    (db : List HighlightRow) (resourceId : String) (fileContent : String)
    (h : HighlightRow)
    (hmem : h ∈ getHighlightsByResource db resourceId)
    (hfail : (validateHighlight computeFileHash (rowParams fileContent h)).isValid = false) :
    (∀ row ∈ (handleGetResourceHighlights computeFileHash db resourceId
        (some fileContent)).2, row.id ≠ h.id) ∧
    (∀ row ∈ (handleGetResourceHighlights computeFileHash db resourceId
        (some fileContent)).1, row.id ≠ h.id) ∧
    (handleGetResourceHighlights computeFileHash db resourceId (some fileContent)).1 =
      getHighlightsByResource
        (handleGetResourceHighlights computeFileHash db resourceId (some fileContent)).2
        resourceId := by
  have hdb2 : (handleGetResourceHighlights computeFileHash db resourceId
      (some fileContent)).2 =
      (deleteInvalidHighlights computeFileHash db resourceId fileContent).2 := rfl
  have hkey : ∀ row ∈ (deleteInvalidHighlights computeFileHash db resourceId
      fileContent).2, row.id ≠ h.id := by
    intro row hrow
    exact id_gone_of_deleteInvalid_foldl computeFileHash fileContent
      (getHighlightsByResource db resourceId) (0, db) h hmem hfail row hrow
  refine ⟨by rw [hdb2]; exact hkey, ?_, rfl⟩
  intro row hrow
  have : row ∈ (deleteInvalidHighlights computeFileHash db resourceId fileContent).2 :=
    (mem_getHighlightsByResource hrow).1
  exact hkey row this

/-- Witness for C2 (amended) at the concrete one-row table: no row with id
"h2" survives. -/
theorem C2_bulk_delete_policy_witness :
    ((handleGetResourceHighlights (fun s => s)
      [{ id := "h2", resourceId := "res2", startOffset := 0, endOffset := 4,
         highlightedText := "gone", contentHash := "oldhash", isStale := false,
         notes := none, createdAt := 1, updatedAt := 1 }]
      "res2" (some "hello world")).2.all (fun row => row.id != "h2")) = true := by
  apply List.all_eq_true.mpr
  intro row hrow
  have h := (C2_bulk_delete_policy (fun s => s)
    [{ id := "h2", resourceId := "res2", startOffset := 0, endOffset := 4,
       highlightedText := "gone", contentHash := "oldhash", isStale := false,
       notes := none, createdAt := 1, updatedAt := 1 }]
    "res2" "hello world"
    { id := "h2", resourceId := "res2", startOffset := 0, endOffset := 4,
      highlightedText := "gone", contentHash := "oldhash", isStale := false,
      notes := none, createdAt := 1, updatedAt := 1 }
    (by simp +decide [getHighlightsByResource]) (by decide)).1 row hrow
  simpa using h

/-- C5 counterexample: with an unreadable file, the single highlight of
resource "res5" is DELETED (the resulting table is empty), not marked stale
and kept, refuting the claim that every highlight of the resource is made
stale. -/
theorem C5_unreadable_counterexample :
    (handleGetResourceHighlights (fun s => s)
      [{ id := "h5", resourceId := "res5", startOffset := 0, endOffset := 1,
         highlightedText := "x", contentHash := "c", isStale := false,
         notes := none, createdAt := 1, updatedAt := 1 }]
      "res5" none).2 = [] := by
  simp +decide [handleGetResourceHighlights, getHighlightsByResource, deleteHighlight]

/-- C5 (amended): when the resource's file cannot be read, the
single-resource validation pass returns normally with an empty highlight
list and DELETES every highlight of that resource (no row of the resource
survives in the table) instead of marking them stale. -/
theorem C5_unreadable_deletes_all (computeFileHash : String → String)
    (db : List HighlightRow) (resourceId : String) :
    (handleGetResourceHighlights computeFileHash db resourceId none).1 = [] ∧
    (∀ row ∈ (handleGetResourceHighlights computeFileHash db resourceId none).2,
        row.resourceId ≠ resourceId) := by
  constructor
  · rfl
  · intro row hrow hres
    have hsub : row ∈ db :=
      mem_of_mem_deleteAll_foldl (getHighlightsByResource db resourceId) db row hrow
    have hmem : row ∈ getHighlightsByResource db resourceId :=
      mem_getHighlightsByResource_of hsub hres
    exact id_gone_of_deleteAll_foldl (getHighlightsByResource db resourceId) db row
      hmem row hrow rfl

/-- Witness for C5 (amended): the concrete one-row table returns an empty
list on an unreadable file. -/
theorem C5_unreadable_deletes_all_witness :
    (handleGetResourceHighlights (fun s => s)
      [{ id := "h5", resourceId := "res5", startOffset := 0, endOffset := 1,
         highlightedText := "x", contentHash := "c", isStale := false,
         notes := none, createdAt := 1, updatedAt := 1 }]
      "res5" none).1 = [] :=
  (C5_unreadable_deletes_all (fun s => s)
    [{ id := "h5", resourceId := "res5", startOffset := 0, endOffset := 1,
       highlightedText := "x", contentHash := "c", isStale := false,
       notes := none, createdAt := 1, updatedAt := 1 }] "res5").1

/-- C7: Restore semantics.  For an existing backup file: with
`useTimestamp = false` the restore overwrites the original path with the
backup's content and returns the original path; with `useTimestamp = true`
it writes the backup's content to a sibling path with a timestamp inserted
before the extension — a path distinct from the original — leaves the
original untouched, and returns that new path; and when the backup file is
missing the restore fails with a "Backup file not found" error and writes
nothing.  The hypotheses `hsplit`, `hbase`, `hdir`, `hd`, `hnoslash` state
that the original path is an ordinary directory-slash-filename path. -/
theorem C7_restore_semantics (toISOString : Int → String)
    (fs : String → Option String) (params : RestoreParams)
    (backupContent : String) (d f : String)
    (hb : fs params.backupPath = some backupContent)
    (hsplit : params.originalPath = d ++ "/" ++ f)
    (hbase : basename params.originalPath = f)
    (hdir : dirname params.originalPath = d)
    (hd : d ≠ "")
    (hnoslash : jsEndsWith d "/" = false) :
    (params.useTimestamp = false →
      (restoreFile toISOString fs params).1 = Except.ok params.originalPath ∧
      (restoreFile toISOString fs params).2 params.originalPath = some backupContent) ∧
    (params.useTimestamp = true →
      (restoreFile toISOString fs params).1 =
        Except.ok (restoreTargetPath toISOString params) ∧
      restoreTargetPath toISOString params ≠ params.originalPath ∧
      (restoreFile toISOString fs params).2 (restoreTargetPath toISOString params) =
        some backupContent ∧
      (restoreFile toISOString fs params).2 params.originalPath = fs params.originalPath) ∧
    (∀ fs2 : String → Option String, fs2 params.backupPath = none →
      (restoreFile toISOString fs2 params).1 =
        Except.error ("Backup file not found: " ++ params.backupPath) ∧
      (restoreFile toISOString fs2 params).2 = fs2) := by
  refine ⟨?_, ?_, ?_⟩
  · intro h
    constructor
    · simp [restoreFile, hb, restoreTargetPath, h]
    · simp [restoreFile, hb, restoreTargetPath, h]
  · intro h
    have htarget : restoreTargetPath toISOString params =
        d ++ "/" ++ (stripMdExtension f ++ "_" ++
          sanitizeTimestamp (toISOString params.timestamp) ++ ".md") := by
      simp [restoreTargetPath, h, hdir, hbase, joinPath, hd, hnoslash]
    have hne : restoreTargetPath toISOString params ≠ params.originalPath := by
      rw [htarget, hsplit]
      intro heq
      have hlen := congrArg String.length heq
      simp only [String.length_append] at hlen
      have hlong := newName_longer f (sanitizeTimestamp (toISOString params.timestamp))
      simp only [String.length_append] at hlong
      omega
    refine ⟨by simp [restoreFile, hb], hne, ?_, ?_⟩
    · simp [restoreFile, hb]
    · simp only [restoreFile, hb]
      exact if_neg (fun heq => hne (heq.symm))
  · intro fs2 h2
    exact ⟨by simp [restoreFile, h2], by simp [restoreFile, h2]⟩

/-- Witness for C7 at the concrete path "/docs/a.md": in-place restore
returns and overwrites the original; timestamped restore returns a distinct
sibling and leaves the original alone; a missing backup errors. -/
theorem C7_restore_semantics_witness :
    (restoreFile (fun _ => "2024-01-01T00:00:00.000Z")
      (fun p => if p = "/cache/b1" then some "original" else none)
      ⟨"/cache/b1", "/docs/a.md", false, 0⟩).1 = Except.ok "/docs/a.md" ∧
    (restoreFile (fun _ => "2024-01-01T00:00:00.000Z")
      (fun p => if p = "/cache/b1" then some "original" else none)
      ⟨"/cache/b1", "/docs/a.md", false, 0⟩).2 "/docs/a.md" = some "original" ∧
    restoreTargetPath (fun _ => "2024-01-01T00:00:00.000Z")
      ⟨"/cache/b1", "/docs/a.md", true, 0⟩ ≠ "/docs/a.md" ∧
    (restoreFile (fun _ => "2024-01-01T00:00:00.000Z")
      (fun p => if p = "/cache/b1" then some "original" else none)
      ⟨"/cache/b1", "/docs/a.md", true, 0⟩).2 "/docs/a.md" =
      (fun p => if p = "/cache/b1" then some "original" else none) "/docs/a.md" ∧
    (restoreFile (fun _ => "2024-01-01T00:00:00.000Z") (fun _ => none)
      ⟨"/cache/b1", "/docs/a.md", false, 0⟩).1 =
      Except.error "Backup file not found: /cache/b1" := by
  have h1 := C7_restore_semantics (fun _ => "2024-01-01T00:00:00.000Z")
    (fun p => if p = "/cache/b1" then some "original" else none)
    ⟨"/cache/b1", "/docs/a.md", false, 0⟩ "original" "/docs" "a.md"
    (by decide) (by decide) (by decide) (by decide) (by decide) (by decide)
  have h2 := C7_restore_semantics (fun _ => "2024-01-01T00:00:00.000Z")
    (fun p => if p = "/cache/b1" then some "original" else none)
    ⟨"/cache/b1", "/docs/a.md", true, 0⟩ "original" "/docs" "a.md"
    (by decide) (by decide) (by decide) (by decide) (by decide) (by decide)
  refine ⟨(h1.1 rfl).1, (h1.1 rfl).2, (h2.2.1 rfl).2.1, (h2.2.1 rfl).2.2.2, ?_⟩
  exact (h1.2.2 (fun _ => none) rfl).1

/-- Parsing a filename produced by `backupFileName` recovers the resource id,
the timestamp and the original filename, provided the resource id contains no
underscore. -/
theorem parseArchiveEntry_backupFileName (rid fn : String) (ts size : Nat)
    (mtime : Int) (hrid : ¬ '_' ∈ rid.toList) :
    parseArchiveEntry ⟨backupFileName rid ts fn, size, mtime⟩ =
      ⟨backupFileName rid ts fn, size, mtime, rid, some ts, fn⟩ := by
  have hts_nosep : ¬ '_' ∈ natToChars ts := by
    intro hmem
    obtain ⟨d, hd, hdc⟩ := natToChars_mem hmem
    exact digitChar_ne_sep hd hdc.symm
  have hname : (backupFileName rid ts fn).toList =
      rid.toList ++ '_' :: (natToChars ts ++ '_' :: fn.toList) := by
    have hu : ("_" : String).toList = ['_'] := rfl
    simp only [backupFileName, toList_append, hu, List.append_assoc,
      List.singleton_append]
    rfl
  have hsplit : jsSplitUnderscoreCh (backupFileName rid ts fn).toList =
      rid.toList :: natToChars ts :: jsSplitUnderscoreCh fn.toList := by
    rw [hname, jsSplitUnderscoreCh_append _ hrid, jsSplitUnderscoreCh_append _ hts_nosep]
  have hts_ne : natToString ts ≠ "" := by
    intro h
    exact natToChars_ne_nil ts (congrArg String.toList h)
  have hparts : jsSplitUnderscore (backupFileName rid ts fn) =
      rid :: natToString ts :: (jsSplitUnderscoreCh fn.toList).map String.mk := by
    simp only [jsSplitUnderscore, hsplit, List.map_cons, mk_toList]
    rfl
  have hjoin : joinUnderscore ((jsSplitUnderscoreCh fn.toList).map String.mk) = fn := by
    have hcomp : ((jsSplitUnderscoreCh fn.toList).map String.mk).map String.toList =
        jsSplitUnderscoreCh fn.toList := by
      rw [List.map_map]
      exact List.map_id'' (fun x => rfl) _
    simp only [joinUnderscore, hcomp, joinUnderscoreCh_jsSplitUnderscoreCh, mk_toList]
  have hjoin2 : joinUnderscore ((jsSplitUnderscoreCh fn.data).map String.mk) = fn := hjoin
  simp [parseArchiveEntry, hparts, hts_ne, jsParseInt10_natToString, hjoin, hjoin2]

/-- What `clearArchive` does to the cache directory: every `.md` file is
removed, and the reported count and byte total are those of the `.md` files
that were present. -/
theorem clearArchive_spec (archive : List ArchiveEntry) :
    (∀ e ∈ (clearArchive archive).2, jsEndsWith e.name ".md" = false) ∧
    (clearArchive archive).1.1 =
      (archive.filter (fun f => jsEndsWith f.name ".md")).length ∧
    (clearArchive archive).1.2 =
      ((archive.filter (fun f => jsEndsWith f.name ".md")).map (fun f => f.size)).sum := by
  refine ⟨?_, ?_, ?_⟩
  · intro e he
    have h1 := List.mem_filter.mp he
    have hcontains : ((listArchiveFiles archive).map (fun f => f.name)).contains e.name
        = false := by
      have := h1.2
      simpa using this
    by_contra hmd2
    have hmd : jsEndsWith e.name ".md" = true := by
      cases h : jsEndsWith e.name ".md"
      · exact absurd h hmd2
      · rfl
    have hin : e ∈ archive.filter (fun f => jsEndsWith f.name ".md") :=
      List.mem_filter.mpr ⟨h1.1, hmd⟩
    have hinfo : parseArchiveEntry e ∈ listArchiveFiles archive :=
      List.mem_mergeSort.mpr (List.mem_map_of_mem _ hin)
    have hnmem : e.name ∈ (listArchiveFiles archive).map (fun f => f.name) :=
      List.mem_map.mpr ⟨parseArchiveEntry e, hinfo, rfl⟩
    rw [show ((listArchiveFiles archive).map (fun f => f.name)).contains e.name =
      ((listArchiveFiles archive).map (fun f => f.name)).elem e.name from rfl] at hcontains
    rw [List.elem_eq_true_of_mem hnmem] at hcontains
    exact Bool.noConfusion hcontains
  · simp [clearArchive, listArchiveFiles]
  · have hperm : List.Perm (listArchiveFiles archive)
        ((archive.filter (fun f => jsEndsWith f.name ".md")).map parseArchiveEntry) :=
      List.mergeSort_perm _ _
    have hsum := (hperm.map (fun f => f.size)).sum_eq
    have hmap : ∀ f : ArchiveEntry, (parseArchiveEntry f).size = f.size := fun _ => rfl
    have hgoal : (clearArchive archive).1.2 =
        ((listArchiveFiles archive).map (fun f => f.size)).sum := rfl
    rw [hgoal, hsum, List.map_map]
    rfl

/-- C8: Archive completeness.  A backup created by `backupFile` appears in
`listArchiveFiles` with the resource id, timestamp and original filename
recovered from its `{resourceId}_{timestamp}_{originalName}` filename, and
`clearArchive` removes the backup file while reporting the number of files
deleted and the total bytes freed.  The resource id is underscore-free (in
the source it is a UUID) and the backed-up file carries the `.md` extension
(the server only tracks Markdown files). -/
theorem C8_archive_completeness (archive : List ArchiveEntry)
    (filePath resourceId : String) (timestamp size : Nat) (mtime : Int)
    (hrid : ¬ '_' ∈ resourceId.toList)
    (hmd : jsEndsWith (basename filePath) ".md" = true) :
    (∃ info ∈ listArchiveFiles
        (backupFile filePath resourceId timestamp size mtime archive).2,
      info.name = (backupFile filePath resourceId timestamp size mtime archive).1 ∧
      info.resourceId = resourceId ∧
      info.timestamp = some timestamp ∧
      info.originalName = basename filePath) ∧
    (∀ e ∈ (clearArchive
        (backupFile filePath resourceId timestamp size mtime archive).2).2,
      e.name ≠ (backupFile filePath resourceId timestamp size mtime archive).1) ∧
    (clearArchive (backupFile filePath resourceId timestamp size mtime archive).2).1.1 =
      ((backupFile filePath resourceId timestamp size mtime archive).2.filter
        (fun f => jsEndsWith f.name ".md")).length ∧
    (clearArchive (backupFile filePath resourceId timestamp size mtime archive).2).1.2 =
      (((backupFile filePath resourceId timestamp size mtime archive).2.filter
        (fun f => jsEndsWith f.name ".md")).map (fun f => f.size)).sum := by
  have hmdname : jsEndsWith
      (backupFileName resourceId timestamp (basename filePath)) ".md" = true := by
    have h1 : ".md".toList <:+ (basename filePath).toList := by
      have := hmd
      simp only [jsEndsWith, List.isSuffixOf_iff_suffix] at this
      exact this
    have h2 : (basename filePath).toList <:+
        (backupFileName resourceId timestamp (basename filePath)).toList := by
      rw [show (backupFileName resourceId timestamp (basename filePath)).toList =
        (resourceId ++ "_" ++ natToString timestamp ++ "_").toList ++
          (basename filePath).toList from by simp [backupFileName, toList_append]]
      exact List.suffix_append _ _
    simp only [jsEndsWith, List.isSuffixOf_iff_suffix]
    exact h1.trans h2
  have hspec := clearArchive_spec
    (backupFile filePath resourceId timestamp size mtime archive).2
  refine ⟨?_, ?_, hspec.2.1, hspec.2.2⟩
  · refine ⟨parseArchiveEntry
      ⟨backupFileName resourceId timestamp (basename filePath), size, mtime⟩, ?_, ?_⟩
    · apply List.mem_mergeSort.mpr
      apply List.mem_map_of_mem
      apply List.mem_filter.mpr
      constructor
      · exact List.mem_append_right _ (by simp [backupFile])
      · exact hmdname
    · rw [parseArchiveEntry_backupFileName _ _ _ _ _ hrid]
      exact ⟨rfl, rfl, rfl, rfl⟩
  · intro e he heq
    have := hspec.1 e he
    rw [heq] at this
    rw [show (backupFile filePath resourceId timestamp size mtime archive).1 =
      backupFileName resourceId timestamp (basename filePath) from rfl] at this
    rw [hmdname] at this
    exact Bool.noConfusion this

/-- Witness for C8: backing up "/docs/note.md" for resource "resA" at
timestamp 17 yields a listed entry with the parsed metadata, and clearing
the archive removes it with the right accounting. -/
theorem C8_archive_completeness_witness :
    (∃ info ∈ listArchiveFiles (backupFile "/docs/note.md" "resA" 17 5 2 []).2,
      info.name = (backupFile "/docs/note.md" "resA" 17 5 2 []).1 ∧
      info.resourceId = "resA" ∧
      info.timestamp = some 17 ∧
      info.originalName = basename "/docs/note.md") ∧
    (∀ e ∈ (clearArchive (backupFile "/docs/note.md" "resA" 17 5 2 []).2).2,
      e.name ≠ (backupFile "/docs/note.md" "resA" 17 5 2 []).1) ∧
    (clearArchive (backupFile "/docs/note.md" "resA" 17 5 2 []).2).1.1 =
      ((backupFile "/docs/note.md" "resA" 17 5 2 []).2.filter
        (fun f => jsEndsWith f.name ".md")).length ∧
    (clearArchive (backupFile "/docs/note.md" "resA" 17 5 2 []).2).1.2 =
      (((backupFile "/docs/note.md" "resA" 17 5 2 []).2.filter
        (fun f => jsEndsWith f.name ".md")).map (fun f => f.size)).sum :=
  C8_archive_completeness [] "/docs/note.md" "resA" 17 5 2
    (by decide) (by decide)

end Llmd
